import Mathlib

/-!
Verification of the timeline geometry and renewal-projection engine of the
Subscription-Manager repository.

The embedded code lives in `utils/dateHelpers.ts` (`getTimelineRange`,
`getPositionPercentage`, `getWidthPercentage`) and in
`components/Timeline.tsx` (`SubscriptionRow`: next-renewal projection loop
and the bar-splitting logic, `renderBar`), plus the range validation of
`DateRangeModal.handleSubmit`.

Dates are modelled as canonical calendar dates (absolute month index plus a
valid day-of-month), exactly the values a JavaScript `Date` at local midnight
can hold after the date-fns operations used by the code (`addMonths`,
`subMonths`, `startOfMonth`, `differenceInDays`).  JavaScript compares dates
by their time value; on canonical dates this is the lexicographic order on
(month index, day), which is how `dle`/`dlt` are defined, and is proved to
agree with the serial-day order (`dle_iff_toDay`).  Percentages are rational
numbers (the source only performs field operations on them).
-/
/-- Billing cycle enum (`types.ts`). -/
inductive BillingCycle where
  | MONTHLY
  | YEARLY
deriving DecidableEq

/-- Proleptic Gregorian leap-year test, as used by JavaScript `Date`. -/
def isLeapYear (y : Nat) : Bool :=
  y % 4 == 0 && (y % 100 != 0 || y % 400 == 0)

/-- Number of days of the absolute month `m` (months counted from year 0:
`m / 12` is the year, `m % 12` the 0-based month, 0 = January). -/
def daysInMonthIdx (m : Nat) : Nat :=
  match m % 12 with
  | 1 => if isLeapYear (m / 12) then 29 else 28
  | 3 => 30
  | 5 => 30
  | 8 => 30
  | 10 => 30
  | _ => 31

theorem daysInMonthIdx_ge (m : Nat) : 28 ≤ daysInMonthIdx m := by
  unfold daysInMonthIdx
  split <;> first | (split <;> omega) | omega

theorem daysInMonthIdx_pos (m : Nat) : 1 ≤ daysInMonthIdx m :=
  le_trans (by omega) (daysInMonthIdx_ge m)

/-- A calendar date: absolute month index (`year * 12 + (month - 1)`) and a
1-based day-of-month, always in range.  This is the set of values a
JavaScript `Date` (at midnight) can denote, which the source code relies on. -/
structure SMDate where
  mIdx : Nat
  day : Nat
  day_ge : 1 ≤ day
  day_le : day ≤ daysInMonthIdx mIdx

theorem SMDate.ext_dates (a b : SMDate)
    (h1 : a.mIdx = b.mIdx) (h2 : a.day = b.day) : a = b := by
  cases a; cases b
  cases h1; cases h2
  rfl

instance : DecidableEq SMDate := fun a b =>
  if h : a.mIdx = b.mIdx ∧ a.day = b.day then
    Decidable.isTrue (SMDate.ext_dates a b h.1 h.2)
  else
    Decidable.isFalse (fun he => h (by cases he; exact ⟨rfl, rfl⟩))

/-- Total days in all absolute months strictly before `m` (serial-day origin). -/
def daysBeforeMonthIdx : Nat → Nat
  | 0 => 0
  | m + 1 => daysBeforeMonthIdx m + daysInMonthIdx m

/-- Serial day number of a date.  Only differences and order of serial days
are ever used, so the choice of epoch is irrelevant. -/
def toDay (d : SMDate) : Nat :=
  daysBeforeMonthIdx d.mIdx + (d.day - 1)

/-- JavaScript `a <= b` on dates (time-value order; lexicographic on
canonical dates). -/
def dle (a b : SMDate) : Prop :=
  a.mIdx < b.mIdx ∨ (a.mIdx = b.mIdx ∧ a.day ≤ b.day)

/-- JavaScript `a < b` on dates. -/
def dlt (a b : SMDate) : Prop :=
  a.mIdx < b.mIdx ∨ (a.mIdx = b.mIdx ∧ a.day < b.day)

instance (a b : SMDate) : Decidable (dle a b) := by
  unfold dle; exact inferInstance

instance (a b : SMDate) : Decidable (dlt a b) := by
  unfold dlt; exact inferInstance

theorem daysBeforeMonthIdx_mono {m n : Nat} (h : m ≤ n) :
    daysBeforeMonthIdx m ≤ daysBeforeMonthIdx n := by
  induction n with
  | zero =>
    have hm : m = 0 := by omega
    subst hm; exact le_refl _
  | succ k ih =>
    rcases Nat.lt_or_ge m (k + 1) with h1 | h1
    · have h2 := ih (by omega)
      have h3 := daysInMonthIdx_ge k
      show daysBeforeMonthIdx m ≤ daysBeforeMonthIdx k + daysInMonthIdx k
      omega
    · have hm : m = k + 1 := by omega
      subst hm; exact le_refl _

theorem toDay_lt_of_mIdx_lt {a b : SMDate} (h : a.mIdx < b.mIdx) :
    toDay a < toDay b := by
  have h1 : a.day ≤ daysInMonthIdx a.mIdx := a.day_le
  have h2 : 1 ≤ a.day := a.day_ge
  have h3 : 1 ≤ b.day := b.day_ge
  have h4 : daysBeforeMonthIdx (a.mIdx + 1) =
      daysBeforeMonthIdx a.mIdx + daysInMonthIdx a.mIdx := rfl
  have h5 : daysBeforeMonthIdx (a.mIdx + 1) ≤ daysBeforeMonthIdx b.mIdx :=
    daysBeforeMonthIdx_mono h
  unfold toDay
  omega

theorem toDay_lt_of_dlt {a b : SMDate} (h : dlt a b) : toDay a < toDay b := by
  rcases h with h | ⟨h1, h2⟩
  · exact toDay_lt_of_mIdx_lt h
  · have h3 := a.day_ge
    unfold toDay
    rw [h1]
    omega

theorem dle_iff_toDay (a b : SMDate) : dle a b ↔ toDay a ≤ toDay b := by
  constructor
  · intro h
    rcases h with h | ⟨h1, h2⟩
    · exact le_of_lt (toDay_lt_of_mIdx_lt h)
    · have h3 := a.day_ge
      unfold toDay
      rw [h1]
      omega
  · intro h
    by_contra hc
    have hd : dlt b a := by unfold dle at hc; unfold dlt; omega
    have := toDay_lt_of_dlt hd
    omega

/-- date-fns `addMonths`: advance `n` calendar months, clamping the
day-of-month into the target month. -/
def addMonths (d : SMDate) (n : Nat) : SMDate :=
  ⟨d.mIdx + n, min d.day (daysInMonthIdx (d.mIdx + n)),
   Nat.le_min.mpr ⟨d.day_ge, daysInMonthIdx_pos _⟩,
   Nat.min_le_right _ _⟩

/-- date-fns `subMonths`: go back `n` calendar months (truncated at the
year-0 origin, which no date appearing in the program ever reaches). -/
def subMonths (d : SMDate) (n : Nat) : SMDate :=
  ⟨d.mIdx - n, min d.day (daysInMonthIdx (d.mIdx - n)),
   Nat.le_min.mpr ⟨d.day_ge, daysInMonthIdx_pos _⟩,
   Nat.min_le_right _ _⟩

/-- date-fns `startOfMonth`. -/
def startOfMonth (d : SMDate) : SMDate :=
  ⟨d.mIdx, 1, le_refl 1, daysInMonthIdx_pos _⟩

/-- Convenience constructor: year/month/day (1-based month and day), with the
day clamped into range so that the constructor is total.  All concrete dates
used below are in range, where it agrees with the plain constructor. -/
def mkDate (y mo d : Nat) : SMDate :=
  ⟨y * 12 + (mo - 1), min (max d 1) (daysInMonthIdx (y * 12 + (mo - 1))),
   Nat.le_min.mpr ⟨le_max_right d 1, daysInMonthIdx_pos _⟩,
   Nat.min_le_right _ _⟩

/-- date-fns `differenceInDays` on midnight dates: signed whole-day
difference. -/
def differenceInDays (a b : SMDate) : Int :=
  (toDay a : Int) - (toDay b : Int)

theorem toDay_lt_addMonths (d : SMDate) (n : Nat) (hn : 1 ≤ n) :
    toDay d < toDay (addMonths d n) := by
  have h1 : daysBeforeMonthIdx (d.mIdx + 1) =
      daysBeforeMonthIdx d.mIdx + daysInMonthIdx d.mIdx := rfl
  have h2 : daysBeforeMonthIdx (d.mIdx + 1) ≤ daysBeforeMonthIdx (d.mIdx + n) :=
    daysBeforeMonthIdx_mono (by omega)
  have h3 : d.day ≤ daysInMonthIdx d.mIdx := d.day_le
  have h4 : 1 ≤ min d.day (daysInMonthIdx (d.mIdx + n)) :=
    Nat.le_min.mpr ⟨d.day_ge, daysInMonthIdx_pos _⟩
  show daysBeforeMonthIdx d.mIdx + (d.day - 1) <
    daysBeforeMonthIdx (d.mIdx + n) + (min d.day (daysInMonthIdx (d.mIdx + n)) - 1)
  omega

/-- First day of absolute month `m`. -/
def dayOne (m : Nat) : SMDate :=
  ⟨m, 1, le_refl 1, daysInMonthIdx_pos _⟩

/-- The `while (current <= end)` month-stepping loop of
`getTimelineRange` (`utils/dateHelpers.ts`): push the current month, then
advance one calendar month. -/
def monthsLoop (current stop : SMDate) : List SMDate :=
  if h : dle current stop then
    current :: monthsLoop (addMonths current 1) stop
  else
    []
termination_by (toDay stop + 1) - toDay current
decreasing_by
  have h1 := toDay_lt_addMonths current 1 (le_refl 1)
  have h2 := (dle_iff_toDay current stop).mp h
  omega

/-- `getTimelineRange` (`utils/dateHelpers.ts`): normalize the custom bounds
(or the defaults, one month before / thirteen months after `now`) to the
first of their month and collect the month grid.  The source reads `now`
from the global clock; it is threaded here as an explicit argument. -/
def getTimelineRange (customStart customEnd : Option SMDate) (now : SMDate) :
    SMDate × SMDate × List SMDate :=
  let start := match customStart with
    | some s => startOfMonth s
    | none => startOfMonth (subMonths now 1)
  let stop := match customEnd with
    | some e => startOfMonth e
    | none => startOfMonth (addMonths now 13)
  (start, stop, monthsLoop start stop)

/-- `getPositionPercentage` (`utils/dateHelpers.ts`): left position percent
of a date relative to the timeline start; dates before the start clamp
to 0, the upper end is not clamped. -/
def getPositionPercentage (date timelineStart : SMDate) (totalDays : ℚ) : ℚ :=
  if dlt date timelineStart then 0
  else ((differenceInDays date timelineStart : ℚ) / totalDays) * 100

/-- `getWidthPercentage` (`utils/dateHelpers.ts`): width percent of the
interval clipped to the timeline window, counting days
inclusive-inclusive (the `+ 1`). -/
def getWidthPercentage (start : SMDate) (endOpt : Option SMDate)
    (timelineStart timelineEnd : SMDate) (totalDays : ℚ) : ℚ :=
  let effectiveStart := if dlt start timelineStart then timelineStart else start
  let effectiveEnd := match endOpt with
    | none => timelineEnd
    | some e => if dlt timelineEnd e then timelineEnd else e
  if dlt effectiveEnd effectiveStart then 0
  else ((differenceInDays effectiveEnd effectiveStart : ℚ) + 1) / totalDays * 100

/-- `DateRangeModal.handleSubmit` range validation (`Timeline.tsx`): the two
month inputs parse as first-of-month dates; if the end precedes the start
the modal alerts and returns without saving (modelled as `none`), otherwise
it hands the pair to `onSave` (modelled as `some`). -/
def handleSubmitRange (startY startM endY endM : Nat) :
    Option (SMDate × SMDate) :=
  let newStart := mkDate startY startM 1
  let newEnd := mkDate endY endM 1
  if dlt newEnd newStart then none else some (newStart, newEnd)

/-- One renewal step (`Timeline.tsx`, `SubscriptionRow`):
`sub.cycle === MONTHLY ? addMonths(d, 1) : addMonths(d, 12)`. -/
def renewalStep (cycle : BillingCycle) (d : SMDate) : SMDate :=
  if cycle = BillingCycle.MONTHLY then addMonths d 1 else addMonths d 12

/-- `MAX_LOOPS` (`Timeline.tsx` line 86): protection against infinite loops. -/
def MAX_LOOPS : Nat := 1000

/-- The `while (nextRenewal <= today && loopCount < MAX_LOOPS)` loop of
`SubscriptionRow`, with the remaining permitted iterations as fuel. -/
def renewalLoop (cycle : BillingCycle) (today : SMDate) :
    Nat → SMDate → SMDate
  | 0, d => d
  | fuel + 1, d =>
    if dle d today then renewalLoop cycle today fuel (renewalStep cycle d)
    else d

/-- Next-renewal projection of `SubscriptionRow` (`Timeline.tsx` lines
79-99): if the subscription has started, step forward cycle by cycle until
strictly past `today` (capped at `MAX_LOOPS`); otherwise a single step from
the start date.  The source guards on `isValid(startDate)`; every `SMDate`
is a valid date, so that guard is vacuous in the model. -/
def projectNextRenewal (startDate : SMDate) (cycle : BillingCycle)
    (today : SMDate) : SMDate :=
  if dle startDate today then renewalLoop cycle today MAX_LOOPS startDate
  else renewalStep cycle startDate

/-- Months in one cycle period: 1 for MONTHLY, 12 for YEARLY (spec §4.2). -/
def cycleMonths : BillingCycle → Nat
  | BillingCycle.MONTHLY => 1
  | BillingCycle.YEARLY => 12

/-- `n`-fold application of one cycle period to a date. -/
def stepIterate (cycle : BillingCycle) (n : Nat) (d : SMDate) : SMDate :=
  (fun x => addMonths x (cycleMonths cycle))^[n] d

/-- Geometry-relevant fields of a `Subscription` record (`types.ts`).
Display-only fields (`id`, `name`, `amount`, `currency`, `color`, `icon`,
`order`, `type`) play no role in the timeline geometry and are omitted;
`category` rows never reach the geometry code. -/
structure Subscription where
  cycle : BillingCycle
  startDate : SMDate
  endDate : Option SMDate
  autoRenew : Bool

/-- Kind of a rendered bar: `active` (the spec's "settled" segment) or
`future` (the spec's "projected" segment), as named in `SubscriptionRow`. -/
inductive BarKind where
  | active
  | future
deriving DecidableEq

/-- A rendered bar segment: kind, left offset percent, width percent
(`renderBar` emits `left: startP%` and `width: (endP-startP)%`). -/
structure BarSegment where
  kind : BarKind
  offsetPercent : ℚ
  widthPercent : ℚ
deriving DecidableEq

/-- The geometric quantities computed by `SubscriptionRow`
(`Timeline.tsx` lines 71-127 and 203-208). -/
structure BarGeom where
  visualEndDate : Option SMDate
  solidEndDate : SMDate
  barStartPct : ℚ
  barEndPct : ℚ
  splitPct : ℚ

/-- Bar geometry of one subscription row (`Timeline.tsx`): `totalDays` is
`differenceInDays(end, start)` of the window (computed in `Timeline`);
`left`/`visualWidth`/`solidEndPct` come from the date helpers;
`visualEndDate` is the window end under `autoRenew`, otherwise the end date,
otherwise `max(nextRenewal, window end)`; the split point is
`Math.min(solidEndPct, barEndPct)`. -/
def barGeometry (sub : Subscription) (tlStart tlEnd today : SMDate) :
    BarGeom :=
  let totalDays : ℚ := (differenceInDays tlEnd tlStart : ℚ)
  let left := getPositionPercentage sub.startDate tlStart totalDays
  let nextRenewal := projectNextRenewal sub.startDate sub.cycle today
  let visualEndDate : Option SMDate :=
    if sub.autoRenew then some tlEnd
    else match sub.endDate with
      | none => some (if dlt tlEnd nextRenewal then nextRenewal else tlEnd)
      | some e => some e
  let visualWidth :=
    getWidthPercentage sub.startDate visualEndDate tlStart tlEnd totalDays
  let solidEndDate := match sub.endDate with
    | some e => e
    | none => nextRenewal
  let solidEndPct := getPositionPercentage solidEndDate tlStart totalDays
  ⟨visualEndDate, solidEndDate, left, left + visualWidth,
   min solidEndPct (left + visualWidth)⟩

/-- `renderBar` (`Timeline.tsx` lines 217-277): segments not longer than the
0.001 sub-pixel epsilon are dropped; otherwise a segment from `startP` of
width `endP - startP` is emitted.  Colors, opacity and corner rounding are
styling only and not modelled. -/
def renderBar (startP endP : ℚ) (kind : BarKind) : Option BarSegment :=
  if endP ≤ startP + 1 / 1000 then none
  else some ⟨kind, startP, endP - startP⟩

/-- The segment list rendered for one subscription (`Timeline.tsx` lines
279-284): the `active` bar over `[barStart, split]`, then the `future` bar
over `[split, barEnd]`.  Note that the source calls `renderBar` for the
`future` segment unconditionally; the `hasFuture` flag (which includes the
`autoRenew` test) is only used for corner rounding. -/
def splitBar (sub : Subscription) (tlStart tlEnd today : SMDate) :
    List BarSegment :=
  let g := barGeometry sub tlStart tlEnd today
  (renderBar g.barStartPct g.splitPct BarKind.active).toList
    ++ (renderBar g.splitPct g.barEndPct BarKind.future).toList

/-- Later of two dates in the serial-day (= JavaScript time value) order,
as the spec's `max(...)` (spec §4.2). -/
def DateMax (a b : SMDate) : SMDate :=
  if toDay a ≤ toDay b then b else a

/-- Earlier of two dates in the serial-day order, as the spec's `min(...)`. -/
def DateMin (a b : SMDate) : SMDate :=
  if toDay a ≤ toDay b then a else b

/-- The clamped interval start of `getWidthPercentage`
(`start < timelineStart ? timelineStart : start`). -/
def effStartOf (s ws : SMDate) : SMDate :=
  if dlt s ws then ws else s

/-- The clamped interval end of `getWidthPercentage`
(`!end || end > timelineEnd ? timelineEnd : end`). -/
def effEndOf (eOpt : Option SMDate) (we : SMDate) : SMDate :=
  match eOpt with
  | none => we
  | some e => if dlt we e then we else e
theorem dlt_iff_toDay (a b : SMDate) : dlt a b ↔ toDay a < toDay b := by
  constructor
  · exact toDay_lt_of_dlt
  · intro h
    by_contra hc
    have hd : dle b a := by unfold dlt at hc; unfold dle; omega
    have := (dle_iff_toDay b a).mp hd
    omega

theorem toDay_inj {a b : SMDate} (h : toDay a = toDay b) : a = b := by
  rcases Nat.lt_trichotomy a.mIdx b.mIdx with hm | hm | hm
  · have := toDay_lt_of_mIdx_lt hm; omega
  · apply SMDate.ext_dates a b hm
    have h1 := a.day_ge
    have h2 := b.day_ge
    unfold toDay at h
    rw [hm] at h
    omega
  · have := toDay_lt_of_mIdx_lt hm; omega

theorem startOfMonth_eq_dayOne (d : SMDate) : startOfMonth d = dayOne d.mIdx :=
  rfl

theorem addMonths_dayOne (a : Nat) : addMonths (dayOne a) 1 = dayOne (a + 1) :=
  SMDate.ext_dates _ _ rfl (Nat.min_eq_left (daysInMonthIdx_pos _))

/-- Closed form of the month loop on first-of-month endpoints (the only way
`getTimelineRange` invokes it): all first-of-month dates from `a` to `b`
inclusive. -/
theorem monthsLoop_day1 (a b : Nat) :
    monthsLoop (dayOne a) (dayOne b) = (List.range' a (b + 1 - a) 1).map dayOne := by
  have main : ∀ n a : Nat, b + 1 - a ≤ n →
      monthsLoop (dayOne a) (dayOne b) = (List.range' a (b + 1 - a) 1).map dayOne := by
    intro n
    induction n with
    | zero =>
      intro a ha
      have hab : b < a := by omega
      have hg : ¬ dle (dayOne a) (dayOne b) := by unfold dle dayOne; simp; omega
      rw [monthsLoop, dif_neg hg]
      have h0 : b + 1 - a = 0 := by omega
      rw [h0]
      rfl
    | succ n ih =>
      intro a ha
      by_cases hab : a ≤ b
      · have hg : dle (dayOne a) (dayOne b) := by unfold dle dayOne; simp; omega
        rw [monthsLoop, dif_pos hg, addMonths_dayOne, ih (a + 1) (by omega)]
        have h1 : b + 1 - a = (b + 1 - (a + 1)) + 1 := by omega
        rw [h1, List.range'_succ]
        rfl
      · have hg : ¬ dle (dayOne a) (dayOne b) := by unfold dle dayOne; simp; omega
        rw [monthsLoop, dif_neg hg]
        have h0 : b + 1 - a = 0 := by omega
        rw [h0]
        rfl
  exact main (b + 1 - a) a (le_refl _)

theorem cycleMonths_pos (c : BillingCycle) : 1 ≤ cycleMonths c := by
  cases c <;> simp [cycleMonths]

theorem renewalStep_eq (c : BillingCycle) (d : SMDate) :
    renewalStep c d = addMonths d (cycleMonths c) := by
  cases c <;> rfl

theorem stepIterate_zero (c : BillingCycle) (d : SMDate) :
    stepIterate c 0 d = d := rfl

theorem stepIterate_succ (c : BillingCycle) (n : Nat) (d : SMDate) :
    stepIterate c (n + 1) d = stepIterate c n (renewalStep c d) := by
  unfold stepIterate
  rw [Function.iterate_succ_apply, renewalStep_eq]

theorem stepIterate_succ' (c : BillingCycle) (n : Nat) (d : SMDate) :
    stepIterate c (n + 1) d = renewalStep c (stepIterate c n d) := by
  unfold stepIterate
  rw [Function.iterate_succ_apply', renewalStep_eq]

theorem toDay_lt_renewalStep (c : BillingCycle) (d : SMDate) :
    toDay d < toDay (renewalStep c d) := by
  rw [renewalStep_eq]
  exact toDay_lt_addMonths d _ (cycleMonths_pos c)

theorem toDay_le_stepIterate (c : BillingCycle) (n : Nat) (d : SMDate) :
    toDay d ≤ toDay (stepIterate c n d) := by
  induction n with
  | zero => exact le_refl _
  | succ k ih =>
    rw [stepIterate_succ']
    exact le_trans ih (le_of_lt (toDay_lt_renewalStep c _))

theorem stepIterate_mIdx (c : BillingCycle) (n : Nat) (d : SMDate) :
    (stepIterate c n d).mIdx = d.mIdx + cycleMonths c * n := by
  induction n with
  | zero => simp [stepIterate_zero]
  | succ k ih =>
    rw [stepIterate_succ', renewalStep_eq]
    show (stepIterate c k d).mIdx + cycleMonths c = _
    rw [Nat.mul_succ]
    omega

/-- Exact description of the loop when the guard, not the fuel, ends it:
if the `n`-th iterate is the first one strictly past `today` and there is
enough fuel for it, the loop returns exactly that iterate. -/
theorem renewalLoop_exact (c : BillingCycle) (t : SMDate) :
    ∀ (n fuel : Nat) (d : SMDate), n ≤ fuel →
      dlt t (stepIterate c n d) →
      (∀ m, m < n → dle (stepIterate c m d) t) →
      renewalLoop c t fuel d = stepIterate c n d := by
  intro n
  induction n with
  | zero =>
    intro fuel d hf hgt hmin
    rw [stepIterate_zero] at hgt ⊢
    have hng : ¬ dle d t := by
      rw [dle_iff_toDay]
      rw [dlt_iff_toDay] at hgt
      omega
    cases fuel with
    | zero => rfl
    | succ f => rw [renewalLoop, if_neg hng]
  | succ n ih =>
    intro fuel d hf hgt hmin
    have hg : dle d t := by
      have := hmin 0 (by omega)
      rwa [stepIterate_zero] at this
    cases fuel with
    | zero => omega
    | succ f =>
      rw [renewalLoop, if_pos hg, stepIterate_succ]
      apply ih f (renewalStep c d) (by omega)
      · rwa [← stepIterate_succ]
      · intro m hm
        have := hmin (m + 1) (by omega)
        rwa [stepIterate_succ] at this

/-- When the guard holds for the whole fuel budget, the loop stops because of
the cap and returns the last computed iterate. -/
theorem renewalLoop_cap (c : BillingCycle) (t : SMDate) :
    ∀ (fuel : Nat) (d : SMDate),
      (∀ m, m < fuel → dle (stepIterate c m d) t) →
      renewalLoop c t fuel d = stepIterate c fuel d := by
  intro fuel
  induction fuel with
  | zero => intro d hall; rfl
  | succ f ih =>
    intro d hall
    have hg : dle d t := by
      have := hall 0 (by omega)
      rwa [stepIterate_zero] at this
    rw [renewalLoop, if_pos hg, stepIterate_succ]
    apply ih
    intro m hm
    have := hall (m + 1) (by omega)
    rwa [stepIterate_succ] at this

/-- The loop always returns some iterate within the fuel budget. -/
theorem renewalLoop_exists (c : BillingCycle) (t : SMDate) :
    ∀ (fuel : Nat) (d : SMDate),
      ∃ n, n ≤ fuel ∧ renewalLoop c t fuel d = stepIterate c n d := by
  intro fuel
  induction fuel with
  | zero => intro d; exact ⟨0, le_refl _, rfl⟩
  | succ f ih =>
    intro d
    by_cases hg : dle d t
    · obtain ⟨n, hn, he⟩ := ih (renewalStep c d)
      refine ⟨n + 1, by omega, ?_⟩
      rw [renewalLoop, if_pos hg, stepIterate_succ]
      exact he
    · exact ⟨0, by omega, by rw [renewalLoop, if_neg hg]; rfl⟩

/-- The loop never goes backwards in time. -/
theorem renewalLoop_ge (c : BillingCycle) (t : SMDate) (fuel : Nat)
    (d : SMDate) : toDay d ≤ toDay (renewalLoop c t fuel d) := by
  obtain ⟨n, _, he⟩ := renewalLoop_exists c t fuel d
  rw [he]
  exact toDay_le_stepIterate c n d

/-- If the guard holds initially and there is fuel, the loop strictly
advances. -/
theorem renewalLoop_gt (c : BillingCycle) (t : SMDate) (fuel : Nat)
    (d : SMDate) (hg : dle d t) (hf : 1 ≤ fuel) :
    toDay d < toDay (renewalLoop c t fuel d) := by
  cases fuel with
  | zero => omega
  | succ f =>
    rw [renewalLoop, if_pos hg]
    exact lt_of_lt_of_le (toDay_lt_renewalStep c d) (renewalLoop_ge c t f _)

/-- The loop result is monotone in `today`. -/
theorem renewalLoop_mono (c : BillingCycle) :
    ∀ (fuel : Nat) (t1 t2 d : SMDate), toDay t1 ≤ toDay t2 →
      toDay (renewalLoop c t1 fuel d) ≤ toDay (renewalLoop c t2 fuel d) := by
  intro fuel
  induction fuel with
  | zero => intro t1 t2 d ht; exact le_refl _
  | succ f ih =>
    intro t1 t2 d ht
    by_cases h1 : dle d t1
    · have h2 : dle d t2 := by
        rw [dle_iff_toDay] at h1 ⊢
        omega
      rw [renewalLoop, if_pos h1, renewalLoop, if_pos h2]
      exact ih t1 t2 _ ht
    · by_cases h2 : dle d t2
      · rw [renewalLoop, if_neg h1, renewalLoop, if_pos h2]
        exact le_trans (le_of_lt (toDay_lt_renewalStep c d))
          (renewalLoop_ge c t2 f _)
      · rw [renewalLoop, if_neg h1, renewalLoop, if_neg h2]

/-- The projected renewal is always strictly after the start date. -/
theorem projectNextRenewal_after_start (s : SMDate) (c : BillingCycle)
    (t : SMDate) : toDay s < toDay (projectNextRenewal s c t) := by
  unfold projectNextRenewal
  by_cases hg : dle s t
  · rw [if_pos hg]
    exact renewalLoop_gt c t MAX_LOOPS s hg (by unfold MAX_LOOPS; omega)
  · rw [if_neg hg]
    exact toDay_lt_renewalStep c s

theorem getWidthPercentage_eq (s : SMDate) (eOpt : Option SMDate)
    (ws we : SMDate) (T : ℚ) :
    getWidthPercentage s eOpt ws we T =
      if dlt (effEndOf eOpt we) (effStartOf s ws) then 0
      else ((differenceInDays (effEndOf eOpt we) (effStartOf s ws) : ℚ) + 1) /
        T * 100 := rfl

theorem effStartOf_ge_start (s ws : SMDate) :
    toDay s ≤ toDay (effStartOf s ws) := by
  unfold effStartOf
  split
  · rename_i h
    exact le_of_lt (toDay_lt_of_dlt h)
  · exact le_refl _

theorem effStartOf_ge_ws (s ws : SMDate) :
    toDay ws ≤ toDay (effStartOf s ws) := by
  unfold effStartOf
  split
  · exact le_refl _
  · rename_i h
    rw [dlt_iff_toDay] at h
    omega

theorem effEndOf_le_we (eOpt : Option SMDate) (we : SMDate) :
    toDay (effEndOf eOpt we) ≤ toDay we := by
  cases eOpt with
  | none => exact le_refl _
  | some e =>
    show toDay (if dlt we e then we else e) ≤ toDay we
    split
    · exact le_refl _
    · rename_i h
      rw [dlt_iff_toDay] at h
      omega

theorem qdiv_scale_le {a b T : ℚ} (h : a ≤ b) (hT : 0 < T) :
    a / T * 100 ≤ b / T * 100 := by
  simp only [div_eq_mul_inv]
  exact mul_le_mul_of_nonneg_right
    (mul_le_mul_of_nonneg_right h (inv_nonneg.mpr hT.le)) (by norm_num)

theorem getPositionPercentage_nonneg (d ws : SMDate) (T : ℚ) (hT : 0 < T) :
    0 ≤ getPositionPercentage d ws T := by
  unfold getPositionPercentage
  split
  · exact le_refl (0 : ℚ)
  · rename_i hlt
    rw [dlt_iff_toDay] at hlt
    have h0 : (0 : Int) ≤ differenceInDays d ws := by
      unfold differenceInDays
      omega
    have h1 : (0 : ℚ) ≤ (differenceInDays d ws : ℚ) := by exact_mod_cast h0
    positivity

theorem getPositionPercentage_mono {a b : SMDate} (ws : SMDate) {T : ℚ}
    (hab : toDay a ≤ toDay b) (hT : 0 < T) :
    getPositionPercentage a ws T ≤ getPositionPercentage b ws T := by
  by_cases hb : dlt b ws
  · have ha : dlt a ws := by
      rw [dlt_iff_toDay] at hb ⊢
      omega
    unfold getPositionPercentage
    rw [if_pos ha, if_pos hb]
  · by_cases ha : dlt a ws
    · unfold getPositionPercentage
      rw [if_pos ha, if_neg hb]
      have := getPositionPercentage_nonneg b ws T hT
      unfold getPositionPercentage at this
      rw [if_neg hb] at this
      exact this
    · unfold getPositionPercentage
      rw [if_neg ha, if_neg hb]
      apply qdiv_scale_le _ hT
      have h0 : differenceInDays a ws ≤ differenceInDays b ws := by
        unfold differenceInDays
        omega
      exact_mod_cast h0

theorem getPositionPercentage_le {d ws we : SMDate} {T : ℚ}
    (hd : toDay d ≤ toDay we) (hT : T = (differenceInDays we ws : ℚ))
    (hpos : 0 < T) : getPositionPercentage d ws T ≤ 100 := by
  unfold getPositionPercentage
  split
  · linarith
  · have h1 : (differenceInDays d ws : ℚ) ≤ T := by
      rw [hT]
      have h0 : differenceInDays d ws ≤ differenceInDays we ws := by
        unfold differenceInDays
        omega
      exact_mod_cast h0
    calc (differenceInDays d ws : ℚ) / T * 100
        ≤ T / T * 100 := qdiv_scale_le h1 hpos
      _ = 100 := by rw [div_self (ne_of_gt hpos)]; ring

theorem getWidthPercentage_nonneg (s : SMDate) (eOpt : Option SMDate)
    (ws we : SMDate) (T : ℚ) (hT : 0 < T) :
    0 ≤ getWidthPercentage s eOpt ws we T := by
  rw [getWidthPercentage_eq]
  split
  · exact le_refl (0 : ℚ)
  · rename_i hlt
    rw [dlt_iff_toDay] at hlt
    have h0 : (0 : Int) ≤ differenceInDays (effEndOf eOpt we) (effStartOf s ws) + 1 := by
      unfold differenceInDays
      omega
    have h1 : (0 : ℚ) ≤ (differenceInDays (effEndOf eOpt we) (effStartOf s ws) : ℚ) + 1 := by
      exact_mod_cast h0
    positivity

/-- Upper bound on any width: one window length plus the inclusive extra
day, as a fraction of the window. -/
theorem getWidthPercentage_le (s : SMDate) (eOpt : Option SMDate)
    (ws we : SMDate) {T : ℚ} (hT : T = (differenceInDays we ws : ℚ))
    (hpos : 0 < T) :
    getWidthPercentage s eOpt ws we T ≤ (T + 1) / T * 100 := by
  rw [getWidthPercentage_eq]
  split
  · positivity
  · apply qdiv_scale_le _ hpos
    rw [hT]
    have h2 := effStartOf_ge_ws s ws
    have h3 := effEndOf_le_we eOpt we
    have h0 : differenceInDays (effEndOf eOpt we) (effStartOf s ws) + 1 ≤
        differenceInDays we ws + 1 := by
      unfold differenceInDays
      omega
    calc ((differenceInDays (effEndOf eOpt we) (effStartOf s ws) : ℚ) + 1)
        = ((differenceInDays (effEndOf eOpt we) (effStartOf s ws) + 1 : Int) : ℚ) := by
          push_cast; ring
      _ ≤ ((differenceInDays we ws + 1 : Int) : ℚ) := by exact_mod_cast h0
      _ = (differenceInDays we ws : ℚ) + 1 := by push_cast; ring

theorem effStartOf_eq_DateMax (s ws : SMDate) :
    effStartOf s ws = DateMax s ws := by
  unfold effStartOf DateMax
  by_cases h : dlt s ws
  · rw [if_pos h, if_pos (le_of_lt ((dlt_iff_toDay s ws).mp h))]
  · rw [if_neg h]
    rw [dlt_iff_toDay] at h
    split
    · rename_i h2
      exact toDay_inj (by omega)
    · rfl

theorem effEndOf_eq_DateMin (eOpt : Option SMDate) (we : SMDate) :
    effEndOf eOpt we = DateMin (eOpt.getD we) we := by
  cases eOpt with
  | none =>
    show we = DateMin we we
    unfold DateMin
    split <;> rfl
  | some e =>
    show (if dlt we e then we else e) = DateMin e we
    unfold DateMin
    by_cases h : dlt we e
    · rw [if_pos h, if_neg (by rw [dlt_iff_toDay] at h; omega)]
    · rw [if_neg h, if_pos (by rw [dlt_iff_toDay] at h; omega)]

/-- C6: `getWidthPercentage` clamps the interval to
`[max(start, windowStart), min(end ?? windowEnd, windowEnd)]`, returns 0
when that interval is empty, and otherwise scales the inclusive day count
(`daysBetween + 1`) by the window size; in particular a single-day
in-window interval has strictly positive width. -/
theorem getWidthPercentage_spec (s : SMDate) (eOpt : Option SMDate)
    (ws we : SMDate) (T : ℚ) (htot : 0 < T) :
    (dlt (DateMin (eOpt.getD we) we) (DateMax s ws) →
      getWidthPercentage s eOpt ws we T = 0)
    ∧ (¬ dlt (DateMin (eOpt.getD we) we) (DateMax s ws) →
      getWidthPercentage s eOpt ws we T =
        ((differenceInDays (DateMin (eOpt.getD we) we) (DateMax s ws) : ℚ) + 1)
          / T * 100)
    ∧ (toDay (DateMin (eOpt.getD we) we) = toDay (DateMax s ws) →
      0 < getWidthPercentage s eOpt ws we T) := by
  rw [getWidthPercentage_eq, effStartOf_eq_DateMax, effEndOf_eq_DateMin]
  refine ⟨?_, ?_, ?_⟩
  · intro h
    rw [if_pos h]
  · intro h
    rw [if_neg h]
  · intro h
    have hn : ¬ dlt (DateMin (eOpt.getD we) we) (DateMax s ws) := by
      rw [dlt_iff_toDay]
      omega
    have hdiff : differenceInDays (DateMin (eOpt.getD we) we) (DateMax s ws) = 0 := by
      unfold differenceInDays
      omega
    rw [if_neg hn, hdiff]
    norm_num
    positivity

/-- Witness for `getWidthPercentage_spec`: a one-day subscription
(1 Feb year 1 through 1 Feb year 1) inside the window
[1 Jan year 1, 1 Dec year 1] (334 days) gets a strictly positive width. -/
theorem getWidthPercentage_spec_witness :
    0 < getWidthPercentage (mkDate 1 2 1) (some (mkDate 1 2 1))
      (mkDate 1 1 1) (mkDate 1 12 1) 334 :=
  (getWidthPercentage_spec (mkDate 1 2 1) (some (mkDate 1 2 1))
    (mkDate 1 1 1) (mkDate 1 12 1) 334 (by norm_num)).2.2 (by decide)

theorem max_ternary (we nr : SMDate) :
    (if dlt we nr then nr else we) = DateMax nr we := by
  unfold DateMax
  by_cases h : dlt we nr
  · rw [if_pos h, if_neg (by rw [dlt_iff_toDay] at h; omega)]
  · rw [if_neg h, if_pos (by rw [dlt_iff_toDay] at h; omega)]

/-- C3: the geometry computed by `SubscriptionRow` matches the spec's
formulas: `visualEnd` is the window end under `autoRenew`, else
`max(projectNextRenewal(...), window.end)` without an end date, else the
end date; `solidEnd` is the end date if present, else the projected
renewal; `barStart = positionOf(startDate)`,
`barEnd = barStart + widthOf(startDate, visualEnd)`, and
`splitPoint = min(positionOf(solidEnd), barEnd)`. -/
theorem barGeometry_matches_spec (sub : Subscription)
    (tlStart tlEnd today : SMDate) :
    (barGeometry sub tlStart tlEnd today).visualEndDate =
      some (if sub.autoRenew then tlEnd
        else match sub.endDate with
          | none => DateMax (projectNextRenewal sub.startDate sub.cycle today) tlEnd
          | some e => e)
    ∧ (barGeometry sub tlStart tlEnd today).solidEndDate =
      sub.endDate.getD (projectNextRenewal sub.startDate sub.cycle today)
    ∧ (barGeometry sub tlStart tlEnd today).barStartPct =
      getPositionPercentage sub.startDate tlStart
        (differenceInDays tlEnd tlStart : ℚ)
    ∧ (barGeometry sub tlStart tlEnd today).barEndPct =
      (barGeometry sub tlStart tlEnd today).barStartPct +
        getWidthPercentage sub.startDate
          (some (if sub.autoRenew then tlEnd
            else match sub.endDate with
              | none => DateMax (projectNextRenewal sub.startDate sub.cycle today) tlEnd
              | some e => e))
          tlStart tlEnd (differenceInDays tlEnd tlStart : ℚ)
    ∧ (barGeometry sub tlStart tlEnd today).splitPct =
      min (getPositionPercentage
            (sub.endDate.getD (projectNextRenewal sub.startDate sub.cycle today))
            tlStart (differenceInDays tlEnd tlStart : ℚ))
        (barGeometry sub tlStart tlEnd today).barEndPct := by
  cases har : sub.autoRenew <;> cases hed : sub.endDate <;>
    simp only [barGeometry, har, hed, Option.getD_some, Option.getD_none,
      max_ternary, Bool.false_eq_true, if_false, if_true] <;>
    exact ⟨trivial, trivial, trivial, trivial, trivial⟩

/-- Shared helper: on an inverted normalized range the month loop exits
immediately, so `getTimelineRange` returns the normalized bounds and an
empty grid (and in particular raises no error: it is a total function). -/
theorem getTimelineRange_inverted_aux (cs ce now : SMDate)
    (h : dlt (startOfMonth ce) (startOfMonth cs)) :
    getTimelineRange (some cs) (some ce) now
      = (startOfMonth cs, startOfMonth ce, ([] : List SMDate)) := by
  have h1 : getTimelineRange (some cs) (some ce) now
      = (dayOne cs.mIdx, dayOne ce.mIdx,
         monthsLoop (dayOne cs.mIdx) (dayOne ce.mIdx)) := rfl
  have hm : ce.mIdx < cs.mIdx := by
    unfold dlt startOfMonth at h
    simp only at h
    omega
  have h2 : monthsLoop (dayOne cs.mIdx) (dayOne ce.mIdx) = [] := by
    rw [monthsLoop_day1]
    have h0 : ce.mIdx + 1 - cs.mIdx = 0 := by omega
    rw [h0]
    rfl
  rw [h1, h2]
  rfl

/-- C10: for inputs whose normalized first-of-month end precedes the
normalized start, `getTimelineRange` throws nothing and returns the two
normalized dates unchanged with an empty `months` array. -/
theorem getTimelineRange_inverted_range (cs ce now : SMDate)
    (h : dlt (startOfMonth ce) (startOfMonth cs)) :
    getTimelineRange (some cs) (some ce) now
      = (startOfMonth cs, startOfMonth ce, ([] : List SMDate)) :=
  getTimelineRange_inverted_aux cs ce now h

/-- Witness for `getTimelineRange_inverted_range`: May year 2 down to
March year 1. -/
theorem getTimelineRange_inverted_range_witness :
    getTimelineRange (some (mkDate 2 5 10)) (some (mkDate 1 3 4)) (mkDate 1 1 1)
      = (startOfMonth (mkDate 2 5 10), startOfMonth (mkDate 1 3 4),
         ([] : List SMDate)) :=
  getTimelineRange_inverted_range (mkDate 2 5 10) (mkDate 1 3 4) (mkDate 1 1 1)
    (by decide)

/-- Counterexample to C5: `getTimelineRange` does NOT fail on an inverted
range.  At the concrete inverted input below it returns an ordinary value
(the normalized bounds with an empty month grid): the function is total and
has no error path, so no `InvalidRangeError` is ever surfaced by it. -/
theorem getTimelineRange_no_failure_on_inverted :
    getTimelineRange (some (mkDate 3 4 7)) (some (mkDate 2 2 2)) (mkDate 1 1 1)
      = (mkDate 3 4 1, mkDate 2 2 1, ([] : List SMDate)) := by
  have h1 := getTimelineRange_inverted_aux (mkDate 3 4 7) (mkDate 2 2 2)
    (mkDate 1 1 1) (by decide)
  rw [h1]
  decide

/-- C5 (amended): the invalid-range contract is enforced upstream, not by
`getTimelineRange`: `DateRangeModal.handleSubmit` refuses to save whenever
the end month precedes the start month, while `getTimelineRange` itself
returns normally (normalized bounds, empty grid) on an inverted range. -/
theorem invalidRange_contract_enforced (sy sm ey em : Nat) (cs ce now : SMDate)
    (h1 : dlt (mkDate ey em 1) (mkDate sy sm 1))
    (h2 : dlt (startOfMonth ce) (startOfMonth cs)) :
    handleSubmitRange sy sm ey em = none
    ∧ getTimelineRange (some cs) (some ce) now
      = (startOfMonth cs, startOfMonth ce, ([] : List SMDate)) := by
  constructor
  · unfold handleSubmitRange
    rw [if_pos h1]
  · exact getTimelineRange_inverted_aux cs ce now h2

/-- Witness for `invalidRange_contract_enforced`. -/
theorem invalidRange_contract_enforced_witness :
    handleSubmitRange 2 3 1 2 = none
    ∧ getTimelineRange (some (mkDate 4 6 8)) (some (mkDate 4 2 3)) (mkDate 1 1 1)
      = (startOfMonth (mkDate 4 6 8), startOfMonth (mkDate 4 2 3),
         ([] : List SMDate)) :=
  invalidRange_contract_enforced 2 3 1 2 (mkDate 4 6 8) (mkDate 4 2 3)
    (mkDate 1 1 1) (by decide) (by decide)

/-- C9: `computeRange()` with no custom bounds at "now" = 2024-05-15
returns start 2024-04-01, end 2025-06-01, and exactly the 15 first-of-month
dates from 2024-04-01 to 2025-06-01, each one calendar month after the
previous. -/
theorem getTimelineRange_default_spec :
    getTimelineRange none none (mkDate 2024 5 15)
      = (mkDate 2024 4 1, mkDate 2025 6 1,
         [mkDate 2024 4 1, mkDate 2024 5 1, mkDate 2024 6 1, mkDate 2024 7 1,
          mkDate 2024 8 1, mkDate 2024 9 1, mkDate 2024 10 1, mkDate 2024 11 1,
          mkDate 2024 12 1, mkDate 2025 1 1, mkDate 2025 2 1, mkDate 2025 3 1,
          mkDate 2025 4 1, mkDate 2025 5 1, mkDate 2025 6 1]) := by
  have h1 : getTimelineRange none none (mkDate 2024 5 15)
      = (dayOne 24291, dayOne 24305,
         monthsLoop (dayOne 24291) (dayOne 24305)) := rfl
  rw [h1, monthsLoop_day1]
  decide

/-- C2: when the iteration cap is not reached, `projectNextRenewal` on a
started subscription returns the first cycle-iterate of the start date that
strictly exceeds the reference date, and on a not-yet-started subscription
returns the start date advanced by exactly one cycle period (one month for
MONTHLY, twelve for YEARLY). -/
theorem projectNextRenewal_stepping (s t : SMDate) (c : BillingCycle)
    (n : Nat) :
    (dle s t → n ≤ MAX_LOOPS → dlt t (stepIterate c n s) →
      (∀ m, m < n → dle (stepIterate c m s) t) →
      projectNextRenewal s c t = stepIterate c n s)
    ∧ (¬ dle s t →
      projectNextRenewal s c t = addMonths s (cycleMonths c)) := by
  constructor
  · intro hg hn hgt hmin
    unfold projectNextRenewal
    rw [if_pos hg]
    exact renewalLoop_exact c t n MAX_LOOPS s hn hgt hmin
  · intro hg
    unfold projectNextRenewal
    rw [if_neg hg, renewalStep_eq]

/-- Witness for `projectNextRenewal_stepping`: start 1 Jan year 1, monthly,
reference 15 Mar year 1; the third iterate (1 Apr year 1) is the first
strictly past the reference. -/
theorem projectNextRenewal_stepping_witness :
    projectNextRenewal (mkDate 1 1 1) BillingCycle.MONTHLY (mkDate 1 3 15)
      = stepIterate BillingCycle.MONTHLY 3 (mkDate 1 1 1) :=
  (projectNextRenewal_stepping (mkDate 1 1 1) (mkDate 1 3 15)
    BillingCycle.MONTHLY 3).1 (by decide) (by decide) (by decide) (by decide)

/-- C4: the renewal stepping loop is bounded: it always returns some
iterate reached within `MAX_LOOPS` = 1000 steps (so it terminates and
never raises), and when the guard would allow all 1000 iterations it
returns the last computed value, the 1000th iterate. -/
theorem projectNextRenewal_terminates (s t : SMDate) (c : BillingCycle) :
    (∃ n, n ≤ MAX_LOOPS ∧ projectNextRenewal s c t = stepIterate c n s)
    ∧ (dle s t → (∀ m, m < MAX_LOOPS → dle (stepIterate c m s) t) →
        projectNextRenewal s c t = stepIterate c MAX_LOOPS s) := by
  constructor
  · unfold projectNextRenewal
    by_cases hg : dle s t
    · rw [if_pos hg]
      exact renewalLoop_exists c t MAX_LOOPS s
    · rw [if_neg hg]
      refine ⟨1, by unfold MAX_LOOPS; omega, ?_⟩
      rw [stepIterate_succ', stepIterate_zero]
  · intro hg hall
    unfold projectNextRenewal
    rw [if_pos hg]
    exact renewalLoop_cap c t MAX_LOOPS s hall

/-- Witness for `projectNextRenewal_terminates`: a start 100 years before
the reference date exhausts the cap, and the loop returns the 1000th
monthly iterate. -/
theorem projectNextRenewal_terminates_witness :
    projectNextRenewal (mkDate 0 1 1) BillingCycle.MONTHLY (mkDate 100 1 1)
      = stepIterate BillingCycle.MONTHLY MAX_LOOPS (mkDate 0 1 1) :=
  (projectNextRenewal_terminates (mkDate 0 1 1) (mkDate 100 1 1)
    BillingCycle.MONTHLY).2 (by decide)
    (by
      intro m hm
      unfold MAX_LOOPS at hm
      unfold dle
      left
      rw [stepIterate_mIdx]
      show 0 * 12 + (1 - 1) + 1 * m < 100 * 12 + (1 - 1)
      omega)

/-- C8: for a fixed start date and cycle, `projectNextRenewal` is monotone
in the reference date, across both branches and under the iteration cap. -/
theorem projectNextRenewal_monotone (s : SMDate) (c : BillingCycle)
    (t1 t2 : SMDate) (h : dle t1 t2) :
    dle (projectNextRenewal s c t1) (projectNextRenewal s c t2) := by
  rw [dle_iff_toDay] at h ⊢
  unfold projectNextRenewal
  by_cases h1 : dle s t1
  · have h2 : dle s t2 := by
      rw [dle_iff_toDay] at h1 ⊢
      omega
    rw [if_pos h1, if_pos h2]
    exact renewalLoop_mono c MAX_LOOPS t1 t2 s h
  · by_cases h2 : dle s t2
    · rw [if_neg h1, if_pos h2]
      show toDay (renewalStep c s) ≤
        toDay (if dle s t2 then renewalLoop c t2 999 (renewalStep c s) else s)
      rw [if_pos h2]
      exact renewalLoop_ge c t2 999 (renewalStep c s)
    · rw [if_neg h1, if_neg h2]

/-- Witness for `projectNextRenewal_monotone`. -/
theorem projectNextRenewal_monotone_witness :
    dle (projectNextRenewal (mkDate 1 1 1) BillingCycle.MONTHLY (mkDate 1 2 10))
      (projectNextRenewal (mkDate 1 1 1) BillingCycle.MONTHLY (mkDate 1 5 20)) :=
  projectNextRenewal_monotone (mkDate 1 1 1) BillingCycle.MONTHLY
    (mkDate 1 2 10) (mkDate 1 5 20) (by decide)

theorem splitBar_eq (sub : Subscription) (tlStart tlEnd today : SMDate) :
    splitBar sub tlStart tlEnd today =
      (renderBar (barGeometry sub tlStart tlEnd today).barStartPct
        (barGeometry sub tlStart tlEnd today).splitPct BarKind.active).toList
      ++ (renderBar (barGeometry sub tlStart tlEnd today).splitPct
        (barGeometry sub tlStart tlEnd today).barEndPct BarKind.future).toList := rfl

theorem barGeometry_barStartPct (sub : Subscription) (tlStart tlEnd today : SMDate) :
    (barGeometry sub tlStart tlEnd today).barStartPct =
      getPositionPercentage sub.startDate tlStart
        (differenceInDays tlEnd tlStart : ℚ) := rfl

theorem barGeometry_barEndPct (sub : Subscription) (tlStart tlEnd today : SMDate) :
    (barGeometry sub tlStart tlEnd today).barEndPct =
      (barGeometry sub tlStart tlEnd today).barStartPct +
        getWidthPercentage sub.startDate
          (barGeometry sub tlStart tlEnd today).visualEndDate tlStart tlEnd
          (differenceInDays tlEnd tlStart : ℚ) := rfl

theorem barGeometry_splitPct (sub : Subscription) (tlStart tlEnd today : SMDate) :
    (barGeometry sub tlStart tlEnd today).splitPct =
      min (getPositionPercentage (barGeometry sub tlStart tlEnd today).solidEndDate
          tlStart (differenceInDays tlEnd tlStart : ℚ))
        (barGeometry sub tlStart tlEnd today).barEndPct := rfl

theorem renderBar_some {p q : ℚ} {k : BarKind} {seg : BarSegment}
    (h : renderBar p q k = some seg) :
    p + 1 / 1000 < q ∧ seg = ⟨k, p, q - p⟩ := by
  unfold renderBar at h
  split at h
  · exact absurd h (by simp)
  · rename_i hle
    exact ⟨not_le.mp hle, (Option.some.inj h).symm⟩

theorem hundred_le_scale {T : ℚ} (hT : 0 < T) : 100 ≤ (T + 1) / T * 100 := by
  have hne : T ≠ 0 := ne_of_gt hT
  have h : (T + 1) / T * 100 = 100 + 1 / T * 100 := by
    field_simp
    ring
  have h2 : (0:ℚ) < 1 / T * 100 := by positivity
  linarith

/-- C1 exhibit (code bug): a subscription with `autoRenew = false` and an
explicit end date (1 Feb year 1) inside the window [1 Jan, 1 Dec year 1].
The code's own comment says the future bar is drawn "only if autoRenew is
true" and it computes `hasFuture = sub.autoRenew && (barEndPct > splitPct)`
for exactly that purpose, but the call
`renderBar(splitPct, barEndPct, 'future')` is made unconditionally:
alongside the settled segment (which does end at
`positionOf(endDate)` = 1550/167, as the claim states) a one-day
`future` (projected) segment is emitted although `autoRenew` is false and
the claim requires zero projected segments. -/
theorem splitBar_future_without_autoRenew :
    splitBar ⟨BillingCycle.MONTHLY, mkDate 1 1 1, some (mkDate 1 2 1), false⟩
      (mkDate 1 1 1) (mkDate 1 12 1) (mkDate 1 1 15)
      = [⟨BarKind.active, 0, 1550/167⟩, ⟨BarKind.future, 1550/167, 50/167⟩]
    ∧ getPositionPercentage (mkDate 1 2 1) (mkDate 1 1 1)
        (differenceInDays (mkDate 1 12 1) (mkDate 1 1 1) : ℚ) = 1550/167 := by
  have hd31 : differenceInDays (mkDate 1 2 1) (mkDate 1 1 1) = 31 := by decide
  have hd0 : differenceInDays (mkDate 1 1 1) (mkDate 1 1 1) = 0 := by decide
  have hT : differenceInDays (mkDate 1 12 1) (mkDate 1 1 1) = 334 := by decide
  have hp0 : getPositionPercentage (mkDate 1 1 1) (mkDate 1 1 1)
      (differenceInDays (mkDate 1 12 1) (mkDate 1 1 1) : ℚ) = 0 := by
    unfold getPositionPercentage
    rw [if_neg (by decide), hd0]
    norm_num
  have hpFeb : getPositionPercentage (mkDate 1 2 1) (mkDate 1 1 1)
      (differenceInDays (mkDate 1 12 1) (mkDate 1 1 1) : ℚ) = 1550/167 := by
    unfold getPositionPercentage
    rw [if_neg (by decide), hd31, hT]
    norm_num
  have hw : getWidthPercentage (mkDate 1 1 1) (some (mkDate 1 2 1)) (mkDate 1 1 1)
      (mkDate 1 12 1) (differenceInDays (mkDate 1 12 1) (mkDate 1 1 1) : ℚ)
      = 1600/167 := by
    rw [getWidthPercentage_eq,
      show effEndOf (some (mkDate 1 2 1)) (mkDate 1 12 1) = mkDate 1 2 1 from by decide,
      show effStartOf (mkDate 1 1 1) (mkDate 1 1 1) = mkDate 1 1 1 from by decide,
      if_neg (by decide), hd31, hT]
    norm_num
  refine ⟨?_, hpFeb⟩
  have hvE : (barGeometry ⟨BillingCycle.MONTHLY, mkDate 1 1 1, some (mkDate 1 2 1), false⟩
      (mkDate 1 1 1) (mkDate 1 12 1) (mkDate 1 1 15)).visualEndDate
      = some (mkDate 1 2 1) := rfl
  have hsE : (barGeometry ⟨BillingCycle.MONTHLY, mkDate 1 1 1, some (mkDate 1 2 1), false⟩
      (mkDate 1 1 1) (mkDate 1 12 1) (mkDate 1 1 15)).solidEndDate
      = mkDate 1 2 1 := rfl
  rw [splitBar_eq, barGeometry_splitPct, barGeometry_barEndPct,
    barGeometry_barStartPct, hvE, hsE]
  show ((renderBar (getPositionPercentage (mkDate 1 1 1) (mkDate 1 1 1) _)
    (min (getPositionPercentage (mkDate 1 2 1) (mkDate 1 1 1) _) _)
    BarKind.active).toList ++ _) = _
  rw [hp0, hpFeb, hw]
  unfold renderBar
  rw [if_neg (by rw [min_def]; norm_num), if_neg (by rw [min_def]; norm_num)]
  rw [min_def]
  norm_num

/-- Counterexample to C7 as stated: a one-day auto-renewing subscription
(start = end = 1 Jan year 1) at the very start of the two-month window
[1 Jan, 1 Mar year 1] (totalWindowDays = 59 > 0) yields a projected
segment of width 6000/59 ≈ 101.7 percent: the inclusive `+ 1` day of
`getWidthPercentage` pushes the bar one day past the window edge, so
`widthPercent` is not within [0, 100]. -/
theorem splitBar_segment_beyond_100 :
    splitBar ⟨BillingCycle.MONTHLY, mkDate 1 1 1, some (mkDate 1 1 1), true⟩
      (mkDate 1 1 1) (mkDate 1 3 1) (mkDate 1 1 1)
      = [⟨BarKind.future, 0, 6000/59⟩]
    ∧ ¬ ((6000 : ℚ) / 59 ≤ 100) := by
  have hd0 : differenceInDays (mkDate 1 1 1) (mkDate 1 1 1) = 0 := by decide
  have hd59 : differenceInDays (mkDate 1 3 1) (mkDate 1 1 1) = 59 := by decide
  have hp0 : getPositionPercentage (mkDate 1 1 1) (mkDate 1 1 1)
      (differenceInDays (mkDate 1 3 1) (mkDate 1 1 1) : ℚ) = 0 := by
    unfold getPositionPercentage
    rw [if_neg (by decide), hd0]
    norm_num
  have hw : getWidthPercentage (mkDate 1 1 1) (some (mkDate 1 3 1)) (mkDate 1 1 1)
      (mkDate 1 3 1) (differenceInDays (mkDate 1 3 1) (mkDate 1 1 1) : ℚ)
      = 6000/59 := by
    rw [getWidthPercentage_eq,
      show effEndOf (some (mkDate 1 3 1)) (mkDate 1 3 1) = mkDate 1 3 1 from by decide,
      show effStartOf (mkDate 1 1 1) (mkDate 1 1 1) = mkDate 1 1 1 from by decide,
      if_neg (by decide), hd59]
    norm_num
  constructor
  · have hvE : (barGeometry ⟨BillingCycle.MONTHLY, mkDate 1 1 1, some (mkDate 1 1 1), true⟩
        (mkDate 1 1 1) (mkDate 1 3 1) (mkDate 1 1 1)).visualEndDate
        = some (mkDate 1 3 1) := rfl
    have hsE : (barGeometry ⟨BillingCycle.MONTHLY, mkDate 1 1 1, some (mkDate 1 1 1), true⟩
        (mkDate 1 1 1) (mkDate 1 3 1) (mkDate 1 1 1)).solidEndDate
        = mkDate 1 1 1 := rfl
    rw [splitBar_eq, barGeometry_splitPct, barGeometry_barEndPct,
      barGeometry_barStartPct, hvE, hsE]
    show ((renderBar (getPositionPercentage (mkDate 1 1 1) (mkDate 1 1 1) _)
      (min (getPositionPercentage (mkDate 1 1 1) (mkDate 1 1 1) _) _)
      BarKind.active).toList ++ _) = _
    rw [hp0, hw]
    unfold renderBar
    rw [if_pos (by rw [min_def]; norm_num), if_neg (by rw [min_def]; norm_num)]
    rw [min_def]
    norm_num
  · norm_num

/-- C7 (amended): for a window with positive day span and a subscription
whose end date (when present) is not before its start date, every rendered
segment has a non-negative offset, a strictly positive width, and its right
edge `offsetPercent + widthPercent` is at most
`(totalDays + 1) / totalDays * 100`: the bar may exceed 100% by exactly the
one inclusive day of `getWidthPercentage`, and by no more. -/
theorem splitBar_bounds (sub : Subscription) (tlStart tlEnd today : SMDate)
    (htot : 0 < differenceInDays tlEnd tlStart)
    (hend : ∀ e, sub.endDate = some e → dle sub.startDate e) :
    ∀ seg ∈ splitBar sub tlStart tlEnd today,
      0 ≤ seg.offsetPercent ∧ 0 < seg.widthPercent ∧
      seg.offsetPercent + seg.widthPercent ≤
        ((differenceInDays tlEnd tlStart : ℚ) + 1) /
          (differenceInDays tlEnd tlStart : ℚ) * 100 := by
  intro seg hseg
  have hT : (0:ℚ) < (differenceInDays tlEnd tlStart : ℚ) := by exact_mod_cast htot
  have hwswe : toDay tlStart < toDay tlEnd := by
    unfold differenceInDays at htot
    omega
  have hsolid : toDay sub.startDate ≤
      toDay (barGeometry sub tlStart tlEnd today).solidEndDate := by
    cases hed : sub.endDate with
    | some e =>
      have hrfl : (barGeometry sub tlStart tlEnd today).solidEndDate =
          (match sub.endDate with
            | some e => e
            | none => projectNextRenewal sub.startDate sub.cycle today) := rfl
      rw [hrfl, hed]
      exact (dle_iff_toDay _ _).mp (hend e hed)
    | none =>
      have hrfl : (barGeometry sub tlStart tlEnd today).solidEndDate =
          (match sub.endDate with
            | some e => e
            | none => projectNextRenewal sub.startDate sub.cycle today) := rfl
      rw [hrfl, hed]
      exact le_of_lt (projectNextRenewal_after_start _ _ _)
  have hmem : renderBar (barGeometry sub tlStart tlEnd today).barStartPct
        (barGeometry sub tlStart tlEnd today).splitPct BarKind.active = some seg
      ∨ renderBar (barGeometry sub tlStart tlEnd today).splitPct
        (barGeometry sub tlStart tlEnd today).barEndPct BarKind.future = some seg := by
    rw [splitBar_eq, List.mem_append] at hseg
    rcases hseg with h | h
    · left
      rwa [Option.mem_toList, Option.mem_def] at h
    · right
      rwa [Option.mem_toList, Option.mem_def] at h
  by_cases hfar : dlt tlEnd sub.startDate
  · exfalso
    have hcond : dlt (effEndOf (barGeometry sub tlStart tlEnd today).visualEndDate tlEnd)
        (effStartOf sub.startDate tlStart) := by
      rw [dlt_iff_toDay]
      have h1 := effEndOf_le_we (barGeometry sub tlStart tlEnd today).visualEndDate tlEnd
      have h2 := effStartOf_ge_start sub.startDate tlStart
      rw [dlt_iff_toDay] at hfar
      omega
    have hnw : getWidthPercentage sub.startDate
        (barGeometry sub tlStart tlEnd today).visualEndDate tlStart tlEnd
        (differenceInDays tlEnd tlStart : ℚ) = 0 := by
      rw [getWidthPercentage_eq, if_pos hcond]
    have hbe : (barGeometry sub tlStart tlEnd today).barEndPct =
        (barGeometry sub tlStart tlEnd today).barStartPct := by
      rw [barGeometry_barEndPct, hnw, add_zero]
    have hsplit : (barGeometry sub tlStart tlEnd today).splitPct =
        (barGeometry sub tlStart tlEnd today).barStartPct := by
      rw [barGeometry_splitPct, hbe]
      apply min_eq_right
      rw [barGeometry_barStartPct]
      exact getPositionPercentage_mono tlStart hsolid hT
    rcases hmem with h | h
    · rw [hsplit] at h
      unfold renderBar at h
      rw [if_pos (by norm_num)] at h
      exact Option.noConfusion h
    · rw [hsplit, hbe] at h
      unfold renderBar at h
      rw [if_pos (by norm_num)] at h
      exact Option.noConfusion h
  · have hnear : toDay sub.startDate ≤ toDay tlEnd := by
      rw [dlt_iff_toDay] at hfar
      omega
    have hbound : (barGeometry sub tlStart tlEnd today).barEndPct ≤
        ((differenceInDays tlEnd tlStart : ℚ) + 1) /
          (differenceInDays tlEnd tlStart : ℚ) * 100 := by
      rw [barGeometry_barEndPct, barGeometry_barStartPct]
      by_cases hclip : dlt sub.startDate tlStart
      · have hl : getPositionPercentage sub.startDate tlStart
            (differenceInDays tlEnd tlStart : ℚ) = 0 := by
          unfold getPositionPercentage
          rw [if_pos hclip]
        rw [hl, zero_add]
        exact getWidthPercentage_le sub.startDate _ tlStart tlEnd rfl hT
      · have heS : effStartOf sub.startDate tlStart = sub.startDate := by
          unfold effStartOf
          rw [if_neg hclip]
        rw [getWidthPercentage_eq, heS]
        split
        · rw [add_zero]
          calc getPositionPercentage sub.startDate tlStart
                (differenceInDays tlEnd tlStart : ℚ)
              ≤ 100 := getPositionPercentage_le hnear rfl hT
            _ ≤ _ := hundred_le_scale hT
        · have hl : getPositionPercentage sub.startDate tlStart
              (differenceInDays tlEnd tlStart : ℚ) =
              (differenceInDays sub.startDate tlStart : ℚ) /
                (differenceInDays tlEnd tlStart : ℚ) * 100 := by
            unfold getPositionPercentage
            rw [if_neg hclip]
          have hcomb : (differenceInDays sub.startDate tlStart : ℚ) /
                (differenceInDays tlEnd tlStart : ℚ) * 100 +
              ((differenceInDays (effEndOf
                  (barGeometry sub tlStart tlEnd today).visualEndDate tlEnd)
                  sub.startDate : ℚ) + 1) /
                (differenceInDays tlEnd tlStart : ℚ) * 100
              = ((differenceInDays sub.startDate tlStart +
                  differenceInDays (effEndOf
                    (barGeometry sub tlStart tlEnd today).visualEndDate tlEnd)
                    sub.startDate + 1 : Int) : ℚ) /
                (differenceInDays tlEnd tlStart : ℚ) * 100 := by
            push_cast
            ring
          rw [hl, hcomb]
          apply qdiv_scale_le _ hT
          have h3 := effEndOf_le_we
            (barGeometry sub tlStart tlEnd today).visualEndDate tlEnd
          have hi : differenceInDays sub.startDate tlStart +
              differenceInDays (effEndOf
                (barGeometry sub tlStart tlEnd today).visualEndDate tlEnd)
                sub.startDate + 1 ≤ differenceInDays tlEnd tlStart + 1 := by
            unfold differenceInDays
            omega
          exact_mod_cast hi
    rcases hmem with h | h
    · obtain ⟨hlt, hseg_eq⟩ := renderBar_some h
      subst hseg_eq
      refine ⟨?_, ?_, ?_⟩
      · show (0:ℚ) ≤ (barGeometry sub tlStart tlEnd today).barStartPct
        rw [barGeometry_barStartPct]
        exact getPositionPercentage_nonneg _ _ _ hT
      · show (0:ℚ) < (barGeometry sub tlStart tlEnd today).splitPct -
          (barGeometry sub tlStart tlEnd today).barStartPct
        linarith
      · show (barGeometry sub tlStart tlEnd today).barStartPct +
          ((barGeometry sub tlStart tlEnd today).splitPct -
            (barGeometry sub tlStart tlEnd today).barStartPct) ≤ _
        have hsb : (barGeometry sub tlStart tlEnd today).splitPct ≤
            (barGeometry sub tlStart tlEnd today).barEndPct := by
          rw [barGeometry_splitPct]
          exact min_le_right _ _
        linarith
    · obtain ⟨hlt, hseg_eq⟩ := renderBar_some h
      subst hseg_eq
      refine ⟨?_, ?_, ?_⟩
      · show (0:ℚ) ≤ (barGeometry sub tlStart tlEnd today).splitPct
        rw [barGeometry_splitPct]
        apply le_min
        · exact getPositionPercentage_nonneg _ _ _ hT
        · rw [barGeometry_barEndPct, barGeometry_barStartPct]
          have h1 := getPositionPercentage_nonneg sub.startDate tlStart
            (differenceInDays tlEnd tlStart : ℚ) hT
          have h2 := getWidthPercentage_nonneg sub.startDate
            (barGeometry sub tlStart tlEnd today).visualEndDate tlStart tlEnd
            (differenceInDays tlEnd tlStart : ℚ) hT
          linarith
      · show (0:ℚ) < (barGeometry sub tlStart tlEnd today).barEndPct -
          (barGeometry sub tlStart tlEnd today).splitPct
        linarith
      · show (barGeometry sub tlStart tlEnd today).splitPct +
          ((barGeometry sub tlStart tlEnd today).barEndPct -
            (barGeometry sub tlStart tlEnd today).splitPct) ≤ _
        linarith

/-- Witness for `splitBar_bounds`: a subscription from 1 Feb to 1 May
year 1 inside the window [1 Jan, 1 Dec year 1]; its settled segment
[1550/167, 6000/167] satisfies all three bounds. -/
theorem splitBar_bounds_witness :
    0 ≤ (1550/167 : ℚ) ∧ 0 < (4450/167 : ℚ) ∧
      (1550/167 : ℚ) + 4450/167 ≤
        ((differenceInDays (mkDate 1 12 1) (mkDate 1 1 1) : ℚ) + 1) /
          (differenceInDays (mkDate 1 12 1) (mkDate 1 1 1) : ℚ) * 100 := by
  have hd31 : differenceInDays (mkDate 1 2 1) (mkDate 1 1 1) = 31 := by decide
  have hd120 : differenceInDays (mkDate 1 5 1) (mkDate 1 1 1) = 120 := by decide
  have hd89 : differenceInDays (mkDate 1 5 1) (mkDate 1 2 1) = 89 := by decide
  have hT : differenceInDays (mkDate 1 12 1) (mkDate 1 1 1) = 334 := by decide
  have hpFeb : getPositionPercentage (mkDate 1 2 1) (mkDate 1 1 1)
      (differenceInDays (mkDate 1 12 1) (mkDate 1 1 1) : ℚ) = 1550/167 := by
    unfold getPositionPercentage
    rw [if_neg (by decide), hd31, hT]
    norm_num
  have hpMay : getPositionPercentage (mkDate 1 5 1) (mkDate 1 1 1)
      (differenceInDays (mkDate 1 12 1) (mkDate 1 1 1) : ℚ) = 6000/167 := by
    unfold getPositionPercentage
    rw [if_neg (by decide), hd120, hT]
    norm_num
  have hw : getWidthPercentage (mkDate 1 2 1) (some (mkDate 1 5 1)) (mkDate 1 1 1)
      (mkDate 1 12 1) (differenceInDays (mkDate 1 12 1) (mkDate 1 1 1) : ℚ)
      = 4500/167 := by
    rw [getWidthPercentage_eq,
      show effEndOf (some (mkDate 1 5 1)) (mkDate 1 12 1) = mkDate 1 5 1 from by decide,
      show effStartOf (mkDate 1 2 1) (mkDate 1 1 1) = mkDate 1 2 1 from by decide,
      if_neg (by decide), hd89, hT]
    norm_num
  have hsp : splitBar ⟨BillingCycle.MONTHLY, mkDate 1 2 1, some (mkDate 1 5 1), false⟩
      (mkDate 1 1 1) (mkDate 1 12 1) (mkDate 1 3 15)
      = [⟨BarKind.active, 1550/167, 4450/167⟩, ⟨BarKind.future, 6000/167, 50/167⟩] := by
    have hvE : (barGeometry ⟨BillingCycle.MONTHLY, mkDate 1 2 1, some (mkDate 1 5 1), false⟩
        (mkDate 1 1 1) (mkDate 1 12 1) (mkDate 1 3 15)).visualEndDate
        = some (mkDate 1 5 1) := rfl
    have hsE : (barGeometry ⟨BillingCycle.MONTHLY, mkDate 1 2 1, some (mkDate 1 5 1), false⟩
        (mkDate 1 1 1) (mkDate 1 12 1) (mkDate 1 3 15)).solidEndDate
        = mkDate 1 5 1 := rfl
    rw [splitBar_eq, barGeometry_splitPct, barGeometry_barEndPct,
      barGeometry_barStartPct, hvE, hsE]
    show ((renderBar (getPositionPercentage (mkDate 1 2 1) (mkDate 1 1 1) _)
      (min (getPositionPercentage (mkDate 1 5 1) (mkDate 1 1 1) _) _)
      BarKind.active).toList ++ _) = _
    rw [hpFeb, hpMay, hw]
    unfold renderBar
    rw [if_neg (by rw [min_def]; norm_num), if_neg (by rw [min_def]; norm_num)]
    rw [min_def]
    norm_num
  exact splitBar_bounds
    ⟨BillingCycle.MONTHLY, mkDate 1 2 1, some (mkDate 1 5 1), false⟩
    (mkDate 1 1 1) (mkDate 1 12 1) (mkDate 1 3 15) (by decide)
    (by
      intro e he
      injection he with h
      rw [← h]
      decide)
    ⟨BarKind.active, 1550/167, 4450/167⟩
    (by rw [hsp]; exact List.mem_cons_self _ _)
